import Mathlib

/-!
Verification of the feature-extraction and prediction-codec core of the
english-article-correction repository (`src/data_set.py`).

The parse-tree type lives in the external module `tree_dict` (not part of the
sources); a tree is therefore represented here by the data the core actually
consumes: its ordered leaf sequence and the ordered list of candidate (DPA)
subtrees, each given by its leaf sequence.  Machine floats of the numpy
feature matrix only ever hold integer values (glove indices, counts,
distances), so feature cells are modelled as `Int`; confidences are modelled
as `ℚ` and are carried through unchanged, exactly as `float(w[1])` does.
Python exceptions are modelled with `Except String`.
-/

set_option maxHeartbeats 1000000
set_option linter.unusedVariables false

/-- A leaf of a constituency parse tree: POS tag, surface token (`name`) and
0-based position in the sentence (`s_index`), as used by `data_set.py`. -/
structure Leaf where
  pos : String
  name : String
  s_index : Nat
deriving Repr, DecidableEq

/-- ASCII upper-casing of a class name, modelling Python `str.upper()` as used
in `DT.valueByName`. -/
def upperName (s : String) : String :=
  String.mk (s.toList.map Char.toUpper)

/-- ASCII lower-casing of a class name, modelling Python `str.lower()` as used
in `savePredictions`. -/
def lowerName (s : String) : String :=
  String.mk (s.toList.map Char.toLower)

/-- Sanitize a POS tag, modelling `pos.replace("$", "_")` (the pattern and the
replacement are single characters, so a character map is equivalent). -/
def sanitizePOS (p : String) : String :=
  String.mk (p.toList.map (fun c => if c = '$' then '_' else c))

/-- The `POS` IntEnum of `data_set.py`: 36 tags with values 1..36. -/
def POS.members : List (String × Nat) :=
  [("CC", 1), ("CD", 2), ("DT", 3), ("EX", 4), ("FW", 5), ("IN", 6),
   ("JJ", 7), ("JJR", 8), ("JJS", 9), ("LS", 10), ("MD", 11), ("NN", 12),
   ("NNS", 13), ("NNP", 14), ("NNPS", 15), ("PDT", 16), ("POS", 17),
   ("PRP", 18), ("PRP_", 19), ("RB", 20), ("RBR", 21), ("RBS", 22),
   ("RP", 23), ("SYM", 24), ("TO", 25), ("UH", 26), ("VB", 27),
   ("VBD", 28), ("VBG", 29), ("VBN", 30), ("VBP", 31), ("VBZ", 32),
   ("WDT", 33), ("WP", 34), ("WP_", 35), ("WRB", 36)]

/-- `POS.hasPOSName`: membership test on the POS registry. -/
def POS.hasPOSName (name : String) : Bool :=
  POS.members.any (fun m => m.1 == name)

/-- `POS.valueByName`: enum value lookup; `none` models the raised exception
for an unknown name. -/
def POS.valueByName (name : String) : Option Nat :=
  (POS.members.find? (fun m => m.1 == name)).map (fun m => m.2)

/-- The `DT` IntEnum of `data_set.py`: A = 1, AN = 2, THE = 3. -/
def DT.members : List (String × Int) :=
  [("A", 1), ("AN", 2), ("THE", 3)]

/-- `DT.valueByName`: case-insensitive (via `upper()`) lookup of a correction
class value; `none` models the raised `KeyError` for an unknown name. -/
def DT.valueByName (name : String) : Option Int :=
  (DT.members.find? (fun m => m.1 == upperName name)).map (fun m => m.2)

/-- `DT.nameByValue`: name of the class with the given value; `none` models
the exception raised when `value < DT.A` or `value > DT.THE`. -/
def DT.nameByValue (value : Int) : Option String :=
  if value < 1 ∨ value > 3 then none
  else (DT.members.find? (fun m => m.2 == value)).map (fun m => m.1)

/-- `offset = 2`: where the POS histogram features start. -/
def offset : Nat := 2

/-- `n_features = offset + len(POS.__members__) + 1 = 39`. -/
def n_features : Nat := offset + POS.members.length + 1

/-- The test on line 148 of `data_set.py`:
`node.pos == 'DT' and any(node.name == name for name in ['a', 'an', 'the'])`. -/
def isArticleDT (node : Leaf) : Bool :=
  node.pos == "DT" && (node.name == "a" || node.name == "an" || node.name == "the")

/-- The test on line 156 of `data_set.py`:
`any(node.pos == pos for pos in ['NN', 'NNS', 'NNP', 'NNPS'])`. -/
def isNounPos (node : Leaf) : Bool :=
  node.pos == "NN" || node.pos == "NNS" || node.pos == "NNP" || node.pos == "NNPS"

/-- The per-row scan state of `extractFeatures`: the feature row under
construction (total map, zero outside the written cells), the label cell for
the row, and the loop variables `dta_node` / `nn_node`. -/
structure ScanState where
  feat : Nat → Int
  label : Int
  dta : Option Leaf
  nn : Option Leaf

/-- Row state at the start of a subtree scan: `np.zeros` row, zero label,
`dta_node = None`, `nn_node = None`. -/
def initState : ScanState :=
  { feat := fun _ => 0, label := 0, dta := none, nn := none }

/-- Pointwise update of a feature row (`features[row, i] = v`). -/
def updF (f : Nat → Int) (i : Nat) (v : Int) : Nat → Int :=
  fun j => if j = i then v else f j

/-- Lines 143-146: sanitize the POS tag and, when it is registered, increment
the histogram cell `offset + pos_index`. -/
def histStep (s : ScanState) (node : Leaf) : ScanState :=
  if POS.hasPOSName (sanitizePOS node.pos) then
    match POS.valueByName (sanitizePOS node.pos) with
    | some pos_index =>
        { s with feat := updF s.feat (offset + pos_index) (s.feat (offset + pos_index) + 1) }
    | none => s
  else s

/-- Lines 150-151: record the article determiner's glove index in slot 0 and
remember the leaf in `dta_node`. -/
def dtaStep (s : ScanState) (node : Leaf) (g : Int) : ScanState :=
  { s with feat := updF s.feat 0 g, dta := some node }

/-- Lines 158-159: record the first noun's glove index in slot 1 and remember
the leaf in `nn_node`. -/
def nnStep (s : ScanState) (node : Leaf) (g : Int) : ScanState :=
  { s with feat := updF s.feat 1 g, nn := some node }

/-- Lines 161-163: whenever both `dta_node` and `nn_node` are set, overwrite
slot 2 with `abs(dta_node.s_index - nn_node.s_index)`. -/
def distStep (s : ScanState) : ScanState :=
  match s.dta, s.nn with
  | some d, some n =>
      { s with feat := updF s.feat 2 (((d.s_index : Int) - (n.s_index : Int)).natAbs : Int) }
  | _, _ => s

/-- Lines 153-154: `if corrections != None and corrections[node.s_index] != None:
labels[row] = DT.valueByName(corrections[node.s_index])`.  Out-of-range access
and an unknown class name model the raised Python exceptions. -/
def applyCorrection (corrections : Option (List (Option String))) (idx : Nat)
    (s : ScanState) : Except String ScanState :=
  match corrections with
  | none => .ok s
  | some corr =>
    match corr.get? idx with
    | none => .error "list index out of range"
    | some none => .ok s
    | some (some cname) =>
      match DT.valueByName cname with
      | none => .error "KeyError: unknown correction class name"
      | some v => .ok { s with label := v }

/-- One iteration of the leaf loop of `extractFeatures` (lines 141-163):
histogram update, then the article-determiner branch / first-noun branch,
then the distance update. -/
def scanLeaf (glove : List Int) (corrections : Option (List (Option String)))
    (s0 : ScanState) (node : Leaf) : Except String ScanState :=
  if isArticleDT node then
    match glove.get? node.s_index with
    | none => .error "list index out of range"
    | some g =>
      match applyCorrection corrections node.s_index (dtaStep (histStep s0 node) node g) with
      | .error e => .error e
      | .ok s2 => .ok (distStep s2)
  else if (histStep s0 node).nn.isNone && isNounPos node then
    match glove.get? node.s_index with
    | none => .error "list index out of range"
    | some g => .ok (distStep (nnStep (histStep s0 node) node g))
  else .ok (distStep (histStep s0 node))

/-- The leaf loop of `extractFeatures` over one candidate subtree. -/
def scanLeaves (glove : List Int) (corrections : Option (List (Option String))) :
    List Leaf → ScanState → Except String ScanState
  | [], s => .ok s
  | node :: rest, s =>
    match scanLeaf glove corrections s node with
    | .error e => .error e
    | .ok t => scanLeaves glove corrections rest t

/-- The feature/label row `extractFeatures` builds for one candidate subtree
(given by its leaf sequence). -/
def extractRow (glove : List Int) (corrections : Option (List (Option String)))
    (st : List Leaf) : Except String ScanState :=
  scanLeaves glove corrections st initState

/-- Error-propagating map over a list, modelling a Python loop in which the
body may raise. -/
def mapExcept (f : α → Except String β) : List α → Except String (List β)
  | [] => .ok []
  | x :: l =>
    match f x with
    | .error e => .error e
    | .ok y =>
      match mapExcept f l with
      | .error e => .error e
      | .ok ys => .ok (y :: ys)

/-- `extractFeatures` (lines 111-168) over the candidate (DPA) subtree list of
a sentence tree.  `node.dpaSubtrees()` belongs to the external `tree_dict`
module, so its result is taken as the input; `text` is accepted and unused,
exactly as in the source.  Returns one feature row per subtree and, when a
corrections list is supplied, one label per subtree (`labels = None`
otherwise). -/
def extractFeatures (dpa_subtrees : List (List Leaf)) (text : List String)
    (glove : List Int) (corrections : Option (List (Option String))) :
    Except String (List (Nat → Int) × Option (List Int)) :=
  match mapExcept (extractRow glove corrections) dpa_subtrees with
  | .error e => .error e
  | .ok states =>
    .ok (states.map (fun s => s.feat),
         match corrections with
         | none => none
         | some _ => some (states.map (fun s => s.label)))

/-- Modelled from the spec: the parse-tree type and its operations
(`td.treeFromDict`, `tree.leaves()`, `tree.dpaSubtrees()`) live in the
external module `tree_dict`, which is not among the sources.  Per spec §3 and
§4.3 a tree is consumed only through its ordered leaf sequence and the
ordered list of candidate (DPA) subtrees, each a subtree given by its leaf
sequence; a tree is represented by exactly these two projections. -/
structure ParseTree where
  leavesL : List Leaf
  dpaSubtrees : List (List Leaf)

/-- The per-sentence corrections length check of `create` (line 223), which
only applies when a corrections list is present. -/
def corrMismatch (s_corr : Option (List (Option String))) (nLeaves : Nat) : Bool :=
  match s_corr with
  | some c => c.length != nLeaves
  | none => false

/-- The per-sentence body of `create` (lines 220-240): the three leaf-count
sanity checks followed by `extractFeatures`. -/
def buildSentence (t_list : List String) (tree : ParseTree) (g_list : List Int)
    (s_corr : Option (List (Option String))) :
    Except String (List (Nat → Int) × Option (List Int)) :=
  if corrMismatch s_corr tree.leavesL.length then
    .error "Corrections list length not equal the tree leaves count"
  else if g_list.length != tree.leavesL.length then
    .error "Glove indices list length not equal the tree leaves count"
  else if t_list.length != tree.leavesL.length then
    .error "Text corpora list length not equal the tree leaves count"
  else extractFeatures tree.dpaSubtrees t_list g_list s_corr

/-- Line 208-212 of `create`: in training mode take the sentence's corrections
list (an exhausted corrections corpus models the `IndexError`), in test mode
use `None`. -/
def selectCorr (test : Bool) (c_all : List (List (Option String))) :
    Except String (Option (List (Option String))) :=
  if test then .ok none
  else
    match c_all with
    | c :: _ => .ok (some c)
    | [] => .error "list index out of range"

/-- The sentence loop of `create` (lines 207-251), walking the four corpora in
lockstep (the source indexes them by the loop counter after validating the
top-level lengths; running out of a list models the `IndexError`).  Labels of
successive sentences are concatenated only in training mode, as in the source
(`elif test == False`). -/
def createLoop (test : Bool) :
    List (List String) → List ParseTree → List (List Int) →
    List (List (Option String)) → Except String (List (Nat → Int) × List Int)
  | _, [], _, _ => .ok ([], [])
  | t_all, tree :: trees, g_all, c_all =>
    match t_all, g_all with
    | [], _ => .error "list index out of range"
    | _, [] => .error "list index out of range"
    | t_list :: t_rest, g_list :: g_rest =>
      match selectCorr test c_all with
      | .error e => .error e
      | .ok s_corr =>
        match buildSentence t_list tree g_list s_corr with
        | .error e => .error e
        | .ok (f, l) =>
          match createLoop test t_rest trees g_rest c_all.tail with
          | .error e => .error e
          | .ok (fs, ls) => .ok (f ++ fs, l.getD [] ++ ls)

/-- `create` (lines 170-256) after the external JSON reads: the three
top-level corpus-length checks, the sentence loop, and the final
`print(len(features))`, which raises a `TypeError` when no sentence was
processed (`features` is still `None` then).  In test mode the labels stay
`None`. -/
def create (text_data : List (List String)) (parse_trees_list : List ParseTree)
    (glove_indices : List (List Int)) (corrections : List (List (Option String)))
    (test : Bool) : Except String (List (Nat → Int) × Option (List Int)) :=
  if text_data.length != parse_trees_list.length then
    .error "Text data corpora length not equals to the parse trees count"
  else if !test && corrections.length != parse_trees_list.length then
    .error "Corrections list length not equals to the parse trees count"
  else if glove_indices.length != parse_trees_list.length then
    .error "Glove indices list length not equals to the parse trees count"
  else
    match createLoop test text_data parse_trees_list glove_indices corrections with
    | .error e => .error e
    | .ok (fs, ls) =>
      if parse_trees_list.isEmpty then
        .error "TypeError: object of type NoneType has no len()"
      else .ok (fs, if test then none else some ls)

/-- Modelled from the spec: `predictinsForSentence` is declared on line 259 of
`data_set.py` with no body (the sources hold only its header and its caller).
Per spec §4.6 the decode direction re-partitions the flat per-site stream into
one slot sequence per sentence, the sentence's sequence being exactly the
`count(sites)` consecutive rows consumed for it; the per-sentence result is
therefore the consumed slice itself. -/
def predictinsForSentence (sentence : List String) (labels : List (Int × ℚ))
    (dpa_nodes : List (List Leaf)) : List (Int × ℚ) :=
  labels

/-- The sentence loop of `predictionsFromLabels` (lines 277-284): for each
tree, slice `labels[l_index : l_index + len(dpa_nodes)]`, advance the cursor,
and append the sentence's slot list.  `text_data[i]` raises an `IndexError`
when the text corpus is shorter than the tree corpus. -/
def predLoop (labels : List (Int × ℚ)) :
    List (List String) → List ParseTree → Nat →
    Except String (List (List (Int × ℚ)))
  | _, [], _ => .ok []
  | text, tree :: trees, l_index =>
    match text with
    | [] => .error "list index out of range"
    | sentence :: t_rest =>
      match predLoop labels t_rest trees (l_index + tree.dpaSubtrees.length) with
      | .error e => .error e
      | .ok rest =>
        .ok (predictinsForSentence sentence
              ((labels.drop l_index).take tree.dpaSubtrees.length)
              tree.dpaSubtrees :: rest)

/-- `predictionsFromLabels` (lines 262-286) after the external JSON reads. -/
def predictionsFromLabels (labels : List (Int × ℚ)) (text_data : List (List String))
    (parse_trees_list : List ParseTree) : Except String (List (List (Int × ℚ))) :=
  predLoop labels text_data parse_trees_list 0

/-- The per-slot body of `savePredictions` (lines 306-314): class range check,
`None` for class 0, `[DT.nameByValue(w[0]).lower(), float(w[1])]` otherwise. -/
def encodeSlot (w : Int × ℚ) : Except String (Option (String × ℚ)) :=
  if w.1 < 0 ∨ w.1 > 3 then .error "Wrong class found"
  else if w.1 = 0 then .ok none
  else
    match DT.nameByValue w.1 with
    | none => .error "Wrong value for enumeration"
    | some class_label => .ok (some (lowerName class_label, w.2))

/-- `savePredictions` (lines 289-320) up to the external `json.dump`: the
nested `out` structure it writes. -/
def savePredictions (predictions : List (List (Int × ℚ))) :
    Except String (List (List (Option (String × ℚ)))) :=
  mapExcept (fun s => mapExcept encodeSlot s) predictions

/-- Whether an `Except` result is a success. -/
def exOk : Except String α → Bool
  | .ok _ => true
  | .error _ => false

/-- Statement helper: the last leaf of a scan that satisfies the
article-determiner test of line 148, if any. -/
def lastDTA : List Leaf → Option Leaf
  | [] => none
  | x :: l =>
    match lastDTA l with
    | some d => some d
    | none => if isArticleDT x then some x else none

/-- Statement helper: the corrections entry consulted last with a non-null
value during a scan, i.e. the entry of the last article-determiner leaf whose
entry is non-null. -/
def lastCorrLabel (corr : List (Option String)) : List Leaf → Option String
  | [] => none
  | x :: l =>
    match lastCorrLabel corr l with
    | some c => some c
    | none => if isArticleDT x then (corr.get? x.s_index).getD none else none

/-- Statement helper: sentence `i` of the corpora violates one of the
per-sentence leaf-count checks of `create` (lines 223-231). -/
def sentenceMismatch (text_data : List (List String)) (parse_trees_list : List ParseTree)
    (glove_indices : List (List Int)) (corrections : List (List (Option String)))
    (test : Bool) (i : Nat) : Prop :=
  ∃ tree, parse_trees_list.get? i = some tree ∧
    ((test = false ∧ ∃ c, corrections.get? i = some c ∧ c.length ≠ tree.leavesL.length) ∨
     (∃ g, glove_indices.get? i = some g ∧ g.length ≠ tree.leavesL.length) ∨
     (∃ t, text_data.get? i = some t ∧ t.length ≠ tree.leavesL.length))

theorem updF_same (f : Nat → Int) (i : Nat) (v : Int) : updF f i v i = v := by
  simp [updF]

theorem updF_other (f : Nat → Int) (i : Nat) (v : Int) (j : Nat) (h : j ≠ i) :
    updF f i v j = f j := by
  simp [updF, h]

theorem POS.valueByName_pos (name : String) (i : Nat)
    (h : POS.valueByName name = some i) : 1 ≤ i := by
  unfold POS.valueByName at h
  cases hf : List.find? (fun m => m.1 == name) POS.members with
  | none => rw [hf] at h; simp at h
  | some m =>
    rw [hf] at h
    simp at h
    have hm : m ∈ POS.members := List.mem_of_find?_eq_some hf
    have hall : ∀ p ∈ POS.members, 1 ≤ p.2 := by decide
    have := hall m hm
    omega

theorem histStep_label (s : ScanState) (x : Leaf) : (histStep s x).label = s.label := by
  unfold histStep
  split
  · split <;> rfl
  · rfl

theorem histStep_dta (s : ScanState) (x : Leaf) : (histStep s x).dta = s.dta := by
  unfold histStep
  split
  · split <;> rfl
  · rfl

theorem histStep_nn (s : ScanState) (x : Leaf) : (histStep s x).nn = s.nn := by
  unfold histStep
  split
  · split <;> rfl
  · rfl

theorem histStep_feat_low (s : ScanState) (x : Leaf) (j : Nat) (hj : j < 3) :
    (histStep s x).feat j = s.feat j := by
  unfold histStep
  split
  · cases hv : POS.valueByName (sanitizePOS x.pos) with
    | none => rfl
    | some i =>
      have hi := POS.valueByName_pos _ _ hv
      simp only
      exact updF_other _ _ _ _ (by simp [offset]; omega)
  · rfl

theorem distStep_label (s : ScanState) : (distStep s).label = s.label := by
  unfold distStep
  split <;> rfl

theorem distStep_dta (s : ScanState) : (distStep s).dta = s.dta := by
  unfold distStep
  split <;> rfl

theorem distStep_nn (s : ScanState) : (distStep s).nn = s.nn := by
  unfold distStep
  split <;> rfl

theorem distStep_feat_ne (s : ScanState) (j : Nat) (h : j ≠ 2) :
    (distStep s).feat j = s.feat j := by
  unfold distStep
  split
  · exact updF_other _ _ _ _ h
  · rfl

theorem distStep_feat2 (s : ScanState) (d n : Leaf) (hd : s.dta = some d)
    (hn : s.nn = some n) :
    (distStep s).feat 2 = (((d.s_index : Int) - (n.s_index : Int)).natAbs : Int) := by
  have hs : distStep s =
      { s with feat := updF s.feat 2 (((d.s_index : Int) - (n.s_index : Int)).natAbs : Int) } := by
    unfold distStep
    rw [hd, hn]
  rw [hs]
  simp [updF]

theorem applyCorrection_ok (c : Option (List (Option String))) (i : Nat)
    (s t : ScanState) (h : applyCorrection c i s = .ok t) :
    t.feat = s.feat ∧ t.dta = s.dta ∧ t.nn = s.nn ∧
    t.label = (match c with
      | none => s.label
      | some corr =>
        match (corr.get? i).getD none with
        | some cn => (DT.valueByName cn).getD 0
        | none => s.label) := by
  cases c with
  | none =>
    simp only [applyCorrection] at h
    cases h
    exact ⟨rfl, rfl, rfl, rfl⟩
  | some corr =>
    simp only [applyCorrection] at h
    cases hg : corr.get? i with
    | none =>
      rw [hg] at h
      exact Except.noConfusion h
    | some entry =>
      rw [hg] at h
      cases entry with
      | none =>
        simp only [] at h
        cases h
        refine ⟨rfl, rfl, rfl, ?_⟩
        show s.label = match (corr.get? i).getD none with
          | some cn => (DT.valueByName cn).getD 0
          | none => s.label
        rw [hg]
        rfl
      | some cname =>
        simp only [] at h
        cases hv : DT.valueByName cname with
        | none =>
          rw [hv] at h
          exact Except.noConfusion h
        | some v =>
          rw [hv] at h
          simp only [] at h
          cases h
          refine ⟨rfl, rfl, rfl, ?_⟩
          show ({ s with label := v } : ScanState).label =
            match (corr.get? i).getD none with
            | some cn => (DT.valueByName cn).getD 0
            | none => s.label
          rw [hg]
          show v = (DT.valueByName cname).getD 0
          rw [hv]
          rfl

theorem scanLeaf_ok (g : List Int) (c : Option (List (Option String)))
    (s : ScanState) (x : Leaf) (t : ScanState)
    (h : scanLeaf g c s x = .ok t) :
    t.dta = (if isArticleDT x then some x else s.dta) ∧
    t.nn = (if isArticleDT x then s.nn
            else if s.nn.isNone && isNounPos x then some x else s.nn) ∧
    t.feat 0 = (if isArticleDT x then (g.get? x.s_index).getD 0 else s.feat 0) ∧
    t.feat 1 = (if isArticleDT x then s.feat 1
                else if s.nn.isNone && isNounPos x then (g.get? x.s_index).getD 0
                else s.feat 1) ∧
    t.label = (match c with
      | none => s.label
      | some corr =>
        if isArticleDT x then
          match (corr.get? x.s_index).getD none with
          | some cn => (DT.valueByName cn).getD 0
          | none => s.label
        else s.label) ∧
    (∀ d n, t.dta = some d → t.nn = some n →
      t.feat 2 = (((d.s_index : Int) - (n.s_index : Int)).natAbs : Int)) := by
  unfold scanLeaf at h
  cases hA : isArticleDT x with
  | true =>
    rw [hA] at h
    simp only [if_true] at h
    cases hg : g.get? x.s_index with
    | none =>
      rw [hg] at h
      exact Except.noConfusion h
    | some gv =>
      rw [hg] at h
      simp only [] at h
      cases hac : applyCorrection c x.s_index (dtaStep (histStep s x) x gv) with
      | error e =>
        rw [hac] at h
        exact Except.noConfusion h
      | ok s2 =>
        rw [hac] at h
        simp only [] at h
        cases h
        obtain ⟨hf, hd, hn, hl⟩ := applyCorrection_ok _ _ _ _ hac
        refine ⟨?_, ?_, ?_, ?_, ?_, ?_⟩
        · rw [distStep_dta, hd]
          simp [dtaStep]
        · rw [distStep_nn, hn]
          simp [dtaStep, histStep_nn]
        · rw [distStep_feat_ne _ _ (by omega), hf]
          simp [dtaStep, updF_same]
        · rw [distStep_feat_ne _ _ (by omega), hf]
          simp only [dtaStep]
          rw [updF_other _ _ _ _ (by omega)]
          simp [histStep_feat_low s x 1 (by omega)]
        · rw [distStep_label, hl]
          cases c with
          | none => simp [dtaStep, histStep_label]
          | some corr => simp [dtaStep, histStep_label]
        · intro d n hd2 hn2
          rw [distStep_dta] at hd2
          rw [distStep_nn] at hn2
          exact distStep_feat2 _ _ _ hd2 hn2
  | false =>
    rw [hA] at h
    simp only [Bool.false_eq_true, if_false] at h
    rw [histStep_nn] at h
    cases hN : s.nn.isNone && isNounPos x with
    | true =>
      rw [hN] at h
      simp only [if_true] at h
      cases hg : g.get? x.s_index with
      | none =>
        rw [hg] at h
        exact Except.noConfusion h
      | some gv =>
        rw [hg] at h
        simp only [] at h
        cases h
        refine ⟨?_, ?_, ?_, ?_, ?_, ?_⟩
        · rw [distStep_dta]
          simp [nnStep, histStep_dta]
        · rw [distStep_nn]
          simp [nnStep]
        · rw [distStep_feat_ne _ _ (by omega)]
          simp only [nnStep]
          rw [updF_other _ _ _ _ (by omega)]
          simp [histStep_feat_low s x 0 (by omega)]
        · rw [distStep_feat_ne _ _ (by omega)]
          simp only [nnStep]
          rw [updF_same]
          simp [hg]
        · rw [distStep_label]
          cases c with
          | none => simp [nnStep, histStep_label]
          | some corr => simp [nnStep, histStep_label]
        · intro d n hd2 hn2
          rw [distStep_dta] at hd2
          rw [distStep_nn] at hn2
          exact distStep_feat2 _ _ _ hd2 hn2
    | false =>
      rw [hN] at h
      simp only [Bool.false_eq_true, if_false] at h
      cases h
      refine ⟨?_, ?_, ?_, ?_, ?_, ?_⟩
      · rw [distStep_dta, histStep_dta]
        simp
      · rw [distStep_nn, histStep_nn]
        simp [hN]
      · rw [distStep_feat_ne _ _ (by omega)]
        simp [histStep_feat_low s x 0 (by omega)]
      · rw [distStep_feat_ne _ _ (by omega)]
        simp [histStep_feat_low s x 1 (by omega), hN]
      · rw [distStep_label, histStep_label]
        cases c with
        | none => simp
        | some corr => simp
      · intro d n hd2 hn2
        rw [distStep_dta] at hd2
        rw [distStep_nn] at hn2
        exact distStep_feat2 _ _ _ hd2 hn2

theorem article_not_noun (x : Leaf) (h : isArticleDT x = true) : isNounPos x = false := by
  simp only [isArticleDT, Bool.and_eq_true, beq_iff_eq] at h
  simp only [isNounPos, h.1]
  decide

theorem scanLeaves_cons_ok (g : List Int) (c : Option (List (Option String)))
    (x : Leaf) (l : List Leaf) (s s' : ScanState)
    (hok : scanLeaves g c (x :: l) s = .ok s') :
    ∃ t, scanLeaf g c s x = .ok t ∧ scanLeaves g c l t = .ok s' := by
  unfold scanLeaves at hok
  cases ht : scanLeaf g c s x with
  | error e => rw [ht] at hok; exact Except.noConfusion hok
  | ok t =>
    rw [ht] at hok
    simp only [] at hok
    exact ⟨t, rfl, hok⟩

theorem scanLeaves_dta (g : List Int) (c : Option (List (Option String)))
    (l : List Leaf) :
    ∀ (s s' : ScanState), scanLeaves g c l s = .ok s' →
    s'.dta = (match lastDTA l with | some d => some d | none => s.dta) ∧
    s'.feat 0 = (match lastDTA l with
      | some d => (g.get? d.s_index).getD 0
      | none => s.feat 0) := by
  induction l with
  | nil =>
    intro s s' hok
    cases hok
    exact ⟨rfl, rfl⟩
  | cons x l ih =>
    intro s s' hok
    obtain ⟨t, ht, hrest⟩ := scanLeaves_cons_ok g c x l s s' hok
    obtain ⟨hdta, hnn, hf0, hf1, hlab, hdist⟩ := scanLeaf_ok g c s x t ht
    obtain ⟨ih1, ih2⟩ := ih t s' hrest
    constructor
    · rw [ih1]
      cases hL : lastDTA l with
      | some d => simp [lastDTA, hL]
      | none =>
        rw [hdta]
        cases hA : isArticleDT x with
        | true => simp [lastDTA, hL, hA]
        | false => simp [lastDTA, hL, hA]
    · rw [ih2]
      cases hL : lastDTA l with
      | some d => simp [lastDTA, hL]
      | none =>
        rw [hf0]
        cases hA : isArticleDT x with
        | true => simp [lastDTA, hL, hA]
        | false => simp [lastDTA, hL, hA]

theorem scanLeaves_nn (g : List Int) (c : Option (List (Option String)))
    (l : List Leaf) :
    ∀ (s s' : ScanState), scanLeaves g c l s = .ok s' →
    (s.nn.isSome → s'.nn = s.nn ∧ s'.feat 1 = s.feat 1) ∧
    (s.nn = none →
      (match l.find? isNounPos with
       | some n => s'.nn = some n ∧ s'.feat 1 = (g.get? n.s_index).getD 0
       | none => s'.nn = none ∧ s'.feat 1 = s.feat 1)) := by
  induction l with
  | nil =>
    intro s s' hok
    cases hok
    refine ⟨fun _ => ⟨rfl, rfl⟩, fun hn => ?_⟩
    simp [List.find?, hn]
  | cons x l ih =>
    intro s s' hok
    obtain ⟨t, ht, hrest⟩ := scanLeaves_cons_ok g c x l s s' hok
    obtain ⟨hdta, hnn, hf0, hf1, hlab, hdist⟩ := scanLeaf_ok g c s x t ht
    constructor
    · intro hsome
      have hnone : s.nn.isNone = false := by
        cases hs : s.nn with
        | none => rw [hs] at hsome; simp at hsome
        | some m => simp [hs]
      have htnn : t.nn = s.nn := by
        rw [hnn]
        cases isArticleDT x <;> simp [hnone]
      have htf1 : t.feat 1 = s.feat 1 := by
        rw [hf1]
        cases isArticleDT x <;> simp [hnone]
      have hts : t.nn.isSome := by rw [htnn]; exact hsome
      obtain ⟨k1, k2⟩ := (ih t s' hrest).1 hts
      exact ⟨k1.trans htnn, k2.trans htf1⟩
    · intro hsnone
      have hnone : s.nn.isNone = true := by simp [hsnone]
      cases hA : isArticleDT x with
      | true =>
        have htnn : t.nn = none := by rw [hnn, hA]; simp [hsnone]
        have htf1 : t.feat 1 = s.feat 1 := by rw [hf1, hA]; simp
        have hNP : isNounPos x = false := article_not_noun x hA
        rw [List.find?_cons, hNP]
        have := (ih t s' hrest).2 htnn
        cases hF : l.find? isNounPos with
        | some n =>
          rw [hF] at this
          simpa using this
        | none =>
          rw [hF] at this
          simp only [cond_false]
          exact ⟨this.1, this.2.trans htf1⟩
      | false =>
        cases hNP : isNounPos x with
        | true =>
          have htnn : t.nn = some x := by
            rw [hnn, hA, hNP, hnone]
            simp
          have htf1 : t.feat 1 = (g.get? x.s_index).getD 0 := by
            rw [hf1, hA, hNP, hnone]
            simp
          rw [List.find?_cons, hNP]
          have hts : t.nn.isSome := by rw [htnn]; simp
          obtain ⟨k1, k2⟩ := (ih t s' hrest).1 hts
          simp only [cond_true]
          exact ⟨k1.trans htnn, k2.trans htf1⟩
        | false =>
          have htnn : t.nn = none := by
            rw [hnn, hA, hNP]
            simp [hsnone]
          have htf1 : t.feat 1 = s.feat 1 := by
            rw [hf1, hA, hNP]
            simp
          rw [List.find?_cons, hNP]
          have := (ih t s' hrest).2 htnn
          cases hF : l.find? isNounPos with
          | some n =>
            rw [hF] at this
            simpa using this
          | none =>
            rw [hF] at this
            simp only [cond_false]
            exact ⟨this.1, this.2.trans htf1⟩

theorem scanLeaves_label (g : List Int) (corr : List (Option String))
    (l : List Leaf) :
    ∀ (s s' : ScanState), scanLeaves g (some corr) l s = .ok s' →
    s'.label = (match lastCorrLabel corr l with
      | some cn => (DT.valueByName cn).getD 0
      | none => s.label) := by
  induction l with
  | nil =>
    intro s s' hok
    cases hok
    rfl
  | cons x l ih =>
    intro s s' hok
    obtain ⟨t, ht, hrest⟩ := scanLeaves_cons_ok _ _ x l s s' hok
    obtain ⟨hdta, hnn, hf0, hf1, hlab, hdist⟩ := scanLeaf_ok _ _ s x t ht
    have ihl := ih t s' hrest
    rw [ihl]
    cases hL : lastCorrLabel corr l with
    | some c2 => simp [lastCorrLabel, hL]
    | none =>
      cases hA : isArticleDT x with
      | true =>
        rw [hlab, hA]
        simp only [if_true, lastCorrLabel, hL]
        cases hE : (corr.get? x.s_index).getD none with
        | some cn => simp [hA]
        | none => simp [hA]
      | false =>
        rw [hlab, hA]
        simp [lastCorrLabel, hL, hA]

theorem scanLeaves_label_none (g : List Int) (l : List Leaf) :
    ∀ (s s' : ScanState), scanLeaves g none l s = .ok s' → s'.label = s.label := by
  induction l with
  | nil =>
    intro s s' hok
    cases hok
    rfl
  | cons x l ih =>
    intro s s' hok
    obtain ⟨t, ht, hrest⟩ := scanLeaves_cons_ok _ _ x l s s' hok
    obtain ⟨hdta, hnn, hf0, hf1, hlab, hdist⟩ := scanLeaf_ok _ _ s x t ht
    exact (ih t s' hrest).trans hlab

theorem scanLeaves_dist (g : List Int) (c : Option (List (Option String)))
    (l : List Leaf) :
    ∀ (s s' : ScanState) (d n : Leaf), l ≠ [] → scanLeaves g c l s = .ok s' →
    s'.dta = some d → s'.nn = some n →
    s'.feat 2 = (((d.s_index : Int) - (n.s_index : Int)).natAbs : Int) := by
  induction l with
  | nil =>
    intro s s' d n hne
    exact absurd rfl hne
  | cons x l ih =>
    intro s s' d n hne hok hd hn
    obtain ⟨t, ht, hrest⟩ := scanLeaves_cons_ok g c x l s s' hok
    cases l with
    | nil =>
      cases hrest
      exact (scanLeaf_ok g c s x s' ht).2.2.2.2.2 d n hd hn
    | cons y l2 =>
      exact ih t s' d n (by simp) hrest hd hn

theorem mapExcept_length (f : α → Except String β) (l : List α) :
    ∀ ys, mapExcept f l = .ok ys → ys.length = l.length := by
  induction l with
  | nil =>
    intro ys h
    cases h
    rfl
  | cons x l ih =>
    intro ys h
    unfold mapExcept at h
    cases hx : f x with
    | error e => rw [hx] at h; exact Except.noConfusion h
    | ok y =>
      rw [hx] at h
      simp only [] at h
      cases hm : mapExcept f l with
      | error e => rw [hm] at h; exact Except.noConfusion h
      | ok ys2 =>
        rw [hm] at h
        simp only [] at h
        cases h
        simp [ih ys2 hm]

theorem mapExcept_forall_ok (f : α → Except String β) (l : List α) :
    ∀ ys, mapExcept f l = .ok ys → ∀ x ∈ l, ∃ y, f x = .ok y := by
  induction l with
  | nil =>
    intro ys h x hx
    cases hx
  | cons z l ih =>
    intro ys h x hx
    unfold mapExcept at h
    cases hz : f z with
    | error e => rw [hz] at h; exact Except.noConfusion h
    | ok y =>
      rw [hz] at h
      simp only [] at h
      cases hm : mapExcept f l with
      | error e => rw [hm] at h; exact Except.noConfusion h
      | ok ys2 =>
        cases List.mem_cons.mp hx with
        | inl heq => exact heq ▸ ⟨y, hz⟩
        | inr hmem => exact ih ys2 hm x hmem

theorem extractFeatures_ok (dpa : List (List Leaf)) (text : List String)
    (g : List Int) (c : Option (List (Option String))) (f : List (Nat → Int))
    (lb : Option (List Int)) (h : extractFeatures dpa text g c = .ok (f, lb)) :
    f.length = dpa.length ∧
    (c = none → lb = none) ∧
    (∀ corr, c = some corr → ∃ lv, lb = some lv ∧ lv.length = dpa.length) := by
  unfold extractFeatures at h
  cases hm : mapExcept (extractRow g c) dpa with
  | error e => rw [hm] at h; exact Except.noConfusion h
  | ok states =>
    rw [hm] at h
    simp only [] at h
    have hlen := mapExcept_length _ _ _ hm
    cases h
    refine ⟨by simp [hlen], ?_, ?_⟩
    · intro hc
      subst hc
      rfl
    · intro corr hc
      subst hc
      exact ⟨states.map (fun s => s.label), rfl, by simp [hlen]⟩

theorem buildSentence_ok (t_list : List String) (tr : ParseTree) (g_list : List Int)
    (s_corr : Option (List (Option String))) (f : List (Nat → Int))
    (lb : Option (List Int))
    (h : buildSentence t_list tr g_list s_corr = .ok (f, lb)) :
    corrMismatch s_corr tr.leavesL.length = false ∧
    g_list.length = tr.leavesL.length ∧
    t_list.length = tr.leavesL.length ∧
    f.length = tr.dpaSubtrees.length ∧
    (s_corr = none → lb = none) ∧
    (∀ corr, s_corr = some corr → ∃ lv, lb = some lv ∧ lv.length = tr.dpaSubtrees.length) := by
  unfold buildSentence at h
  cases hc : corrMismatch s_corr tr.leavesL.length with
  | true => rw [hc] at h; simp at h
  | false =>
    rw [hc] at h
    simp only [Bool.false_eq_true, if_false] at h
    cases hg : g_list.length != tr.leavesL.length with
    | true => rw [hg] at h; simp at h
    | false =>
      rw [hg] at h
      simp only [Bool.false_eq_true, if_false] at h
      cases htl : t_list.length != tr.leavesL.length with
      | true => rw [htl] at h; simp at h
      | false =>
        rw [htl] at h
        simp only [Bool.false_eq_true, if_false] at h
        have hx := extractFeatures_ok _ _ _ _ _ _ h
        refine ⟨rfl, by simpa using hg, by simpa using htl, hx.1, hx.2.1, hx.2.2⟩

theorem get?_succ_tail (l : List α) (n : Nat) : l.get? (n + 1) = l.tail.get? n := by
  cases l <;> simp

theorem createLoop_cons_ok (test : Bool) (tr : ParseTree) (trees : List ParseTree)
    (t_all : List (List String)) (g_all : List (List Int))
    (c_all : List (List (Option String))) (fs : List (Nat → Int)) (ls : List Int)
    (h : createLoop test t_all (tr :: trees) g_all c_all = .ok (fs, ls)) :
    ∃ t_list t_rest g_list g_rest s_corr f lb fs2 ls2,
      t_all = t_list :: t_rest ∧ g_all = g_list :: g_rest ∧
      (if test then s_corr = none
       else ∃ c c_rest, c_all = c :: c_rest ∧ s_corr = some c) ∧
      buildSentence t_list tr g_list s_corr = .ok (f, lb) ∧
      createLoop test t_rest trees g_rest c_all.tail = .ok (fs2, ls2) ∧
      fs = f ++ fs2 ∧ ls = lb.getD [] ++ ls2 := by
  unfold createLoop at h
  cases t_all with
  | nil => cases g_all <;> exact Except.noConfusion h
  | cons t_list t_rest =>
    cases g_all with
    | nil => exact Except.noConfusion h
    | cons g_list g_rest =>
      simp only [] at h
      cases hsel : selectCorr test c_all with
      | error e => rw [hsel] at h; exact Except.noConfusion h
      | ok s_corr =>
        rw [hsel] at h
        simp only [] at h
        have hscval : if test then s_corr = none
            else ∃ c c_rest, c_all = c :: c_rest ∧ s_corr = some c := by
          unfold selectCorr at hsel
          cases htest : test with
          | true =>
            rw [htest] at hsel
            simp only [if_true] at hsel
            cases hsel
            simp
          | false =>
            rw [htest] at hsel
            simp only [Bool.false_eq_true, if_false] at hsel
            cases c_all with
            | nil => exact Except.noConfusion hsel
            | cons c c_rest =>
              simp only [] at hsel
              cases hsel
              simp
        cases hb : buildSentence t_list tr g_list s_corr with
        | error e => rw [hb] at h; exact Except.noConfusion h
        | ok fl =>
          rw [hb] at h
          simp only [] at h
          cases hr : createLoop test t_rest trees g_rest c_all.tail with
          | error e => rw [hr] at h; exact Except.noConfusion h
          | ok p =>
            rw [hr] at h
            simp only [] at h
            cases h
            exact ⟨t_list, t_rest, g_list, g_rest, s_corr, fl.1, fl.2, p.1, p.2,
              rfl, rfl, hscval, hb, hr, rfl, rfl⟩

theorem createLoop_count (test : Bool) (trees : List ParseTree) :
    ∀ (t_all : List (List String)) (g_all : List (List Int))
      (c_all : List (List (Option String))) (fs : List (Nat → Int)) (ls : List Int),
    createLoop test t_all trees g_all c_all = .ok (fs, ls) →
    fs.length = (trees.map (fun tr => tr.dpaSubtrees.length)).sum ∧
    (test = false → ls.length = fs.length) := by
  induction trees with
  | nil =>
    intro t_all g_all c_all fs ls h
    unfold createLoop at h
    cases h
    simp
  | cons tr trees ih =>
    intro t_all g_all c_all fs ls h
    obtain ⟨t_list, t_rest, g_list, g_rest, s_corr, f, lb, fs2, ls2,
      ht, hg, hsc, hb, hr, hfs, hls⟩ := createLoop_cons_ok test tr trees _ _ _ _ _ h
    obtain ⟨ihl, ihlab⟩ := ih t_rest g_rest c_all.tail fs2 ls2 hr
    have hbo := buildSentence_ok _ _ _ _ _ _ hb
    constructor
    · rw [hfs]
      simp [List.length_append, hbo.2.2.2.1, ihl]
    · intro htest
      rw [htest] at hsc
      simp only [Bool.false_eq_true, if_false] at hsc
      obtain ⟨c, c_rest, hc, hsome⟩ := hsc
      obtain ⟨lv, hlv, hlvlen⟩ := hbo.2.2.2.2.2 c hsome
      rw [hls, hfs, hlv]
      simp [List.length_append, hlvlen, hbo.2.2.2.1, ihlab htest, ihl]

theorem createLoop_no_mismatch (test : Bool) (trees : List ParseTree) :
    ∀ (t_all : List (List String)) (g_all : List (List Int))
      (c_all : List (List (Option String))) (fs : List (Nat → Int)) (ls : List Int),
    createLoop test t_all trees g_all c_all = .ok (fs, ls) →
    ∀ i, ¬ sentenceMismatch t_all trees g_all c_all test i := by
  induction trees with
  | nil =>
    intro t_all g_all c_all fs ls h i hmis
    obtain ⟨tree, htree, _⟩ := hmis
    simp at htree
  | cons tr trees ih =>
    intro t_all g_all c_all fs ls h i hmis
    obtain ⟨t_list, t_rest, g_list, g_rest, s_corr, f, lb, fs2, ls2,
      ht, hg, hsc, hb, hr, hfs, hls⟩ := createLoop_cons_ok test tr trees _ _ _ _ _ h
    subst ht
    subst hg
    have hbo := buildSentence_ok _ _ _ _ _ _ hb
    obtain ⟨tree, htree, hdis⟩ := hmis
    cases i with
    | zero =>
      have htr : tree = tr := by simpa using htree.symm
      subst htr
      rcases hdis with ⟨htest, c, hc, hclen⟩ | ⟨g2, hg2, hglen⟩ | ⟨t2, ht2, htlen⟩
      · rw [htest] at hsc
        simp only [Bool.false_eq_true, if_false] at hsc
        obtain ⟨c0, c_rest, hcall, hsome⟩ := hsc
        rw [hcall] at hc
        have hcc : c0 = c := by simpa using hc
        subst hcc
        rw [hsome] at hbo
        have h1 := hbo.1
        unfold corrMismatch at h1
        simp at h1
        exact hclen h1
      · have hgg : g_list = g2 := by
          have := hg2
          simp at this
          exact this
        subst hgg
        exact hglen hbo.2.1
      · have htt : t_list = t2 := by
          have := ht2
          simp at this
          exact this
        subst htt
        exact htlen hbo.2.2.1
    | succ j =>
      apply ih t_rest g_rest c_all.tail fs2 ls2 hr j
      refine ⟨tree, by simpa using htree, ?_⟩
      rcases hdis with ⟨htest, c, hc, hclen⟩ | ⟨g2, hg2, hglen⟩ | ⟨t2, ht2, htlen⟩
      · exact Or.inl ⟨htest, c, by rw [← get?_succ_tail]; exact hc, hclen⟩
      · exact Or.inr (Or.inl ⟨g2, by simpa using hg2, hglen⟩)
      · exact Or.inr (Or.inr ⟨t2, by simpa using ht2, htlen⟩)

theorem create_ok (text_data : List (List String)) (trees : List ParseTree)
    (glove : List (List Int)) (corrs : List (List (Option String))) (test : Bool)
    (fs : List (Nat → Int)) (lbs : Option (List Int))
    (h : create text_data trees glove corrs test = .ok (fs, lbs)) :
    ∃ ls, createLoop test text_data trees glove corrs = .ok (fs, ls) ∧
      lbs = (if test then none else some ls) ∧ trees ≠ [] ∧
      text_data.length = trees.length ∧
      (test = false → corrs.length = trees.length) ∧
      glove.length = trees.length := by
  unfold create at h
  cases h1 : text_data.length != trees.length with
  | true => rw [h1] at h; simp at h
  | false =>
    rw [h1] at h
    simp only [Bool.false_eq_true, if_false] at h
    cases h2 : (!test && corrs.length != trees.length) with
    | true => rw [h2] at h; simp at h
    | false =>
      rw [h2] at h
      simp only [Bool.false_eq_true, if_false] at h
      cases h3 : glove.length != trees.length with
      | true => rw [h3] at h; simp at h
      | false =>
        rw [h3] at h
        simp only [Bool.false_eq_true, if_false] at h
        cases hcl : createLoop test text_data trees glove corrs with
        | error e => rw [hcl] at h; exact Except.noConfusion h
        | ok p =>
          rw [hcl] at h
          obtain ⟨fs2, ls2⟩ := p
          simp only [] at h
          cases hemp : trees.isEmpty with
          | true => rw [hemp] at h; simp at h
          | false =>
            rw [hemp] at h
            simp only [Bool.false_eq_true, if_false] at h
            have hinj := h
            simp only [Except.ok.injEq, Prod.mk.injEq] at hinj
            obtain ⟨hf, hl⟩ := hinj
            subst hf
            refine ⟨ls2, rfl, hl.symm, ?_, ?_, ?_, ?_⟩
            · intro hne
              rw [hne] at hemp
              simp at hemp
            · simpa using h1
            · intro htest
              rw [htest] at h2
              simpa using h2
            · simpa using h3

theorem predLoop_ok (labels : List (Int × ℚ)) (trees : List ParseTree) :
    ∀ (text : List (List String)) (l_index : Nat) (res : List (List (Int × ℚ))),
    predLoop labels text trees l_index = .ok res →
    res.length = trees.length ∧
    ∀ i, i < trees.length →
      res.get? i = some ((labels.drop
          (l_index + ((trees.take i).map (fun t => t.dpaSubtrees.length)).sum)).take
        ((trees.get? i).elim 0 (fun t => t.dpaSubtrees.length))) := by
  induction trees with
  | nil =>
    intro text l_index res h
    have hred : predLoop labels text [] l_index = .ok [] := by
      cases text <;> rfl
    rw [hred] at h
    cases h
    exact ⟨rfl, fun i hi => absurd hi (by simp)⟩
  | cons tr trees ih =>
    intro text l_index res h
    unfold predLoop at h
    cases text with
    | nil => exact Except.noConfusion h
    | cons sentence t_rest =>
      simp only [] at h
      cases hr : predLoop labels t_rest trees (l_index + tr.dpaSubtrees.length) with
      | error e => rw [hr] at h; exact Except.noConfusion h
      | ok rest =>
        rw [hr] at h
        simp only [] at h
        cases h
        obtain ⟨ihlen, ihget⟩ := ih t_rest (l_index + tr.dpaSubtrees.length) rest hr
        refine ⟨by simp [ihlen], ?_⟩
        intro i hi
        cases i with
        | zero => simp [predictinsForSentence]
        | succ j =>
          have hj : j < trees.length := by simpa using hi
          have hg := ihget j hj
          have harith : l_index +
              (((tr :: trees).take (j + 1)).map (fun t => t.dpaSubtrees.length)).sum =
              (l_index + tr.dpaSubtrees.length) +
              ((trees.take j).map (fun t => t.dpaSubtrees.length)).sum := by
            simp only [List.take_succ_cons, List.map_cons, List.sum_cons]
            omega
          rw [List.get?_cons_succ, hg, harith]
          rfl

theorem encodeSlot_bad (w : Int × ℚ) (h : w.1 < 0 ∨ w.1 > 3) :
    encodeSlot w = .error "Wrong class found" := by
  unfold encodeSlot
  rw [if_pos h]

theorem lastCorrLabel_none (corr : List (Option String)) (l : List Leaf)
    (h : ∀ x ∈ l, isArticleDT x = true → (corr.get? x.s_index).getD none = none) :
    lastCorrLabel corr l = none := by
  induction l with
  | nil => rfl
  | cons x l ih =>
    have hrec : lastCorrLabel corr l = none :=
      ih (fun y hy hA => h y (List.mem_cons_of_mem x hy) hA)
    unfold lastCorrLabel
    rw [hrec]
    cases hA : isArticleDT x with
    | true => simpa using h x (List.mem_cons_self x l) hA
    | false => simp

theorem extractRow_dta (glove : List Int) (corr : Option (List (Option String)))
    (st : List Leaf) (s : ScanState) (hok : extractRow glove corr st = .ok s) :
    s.dta = lastDTA st ∧
    s.feat 0 = (match lastDTA st with
      | some d => (glove.get? d.s_index).getD 0
      | none => 0) := by
  have h := scanLeaves_dta glove corr st initState s hok
  cases hL : lastDTA st with
  | some d =>
    rw [hL] at h
    exact h
  | none =>
    rw [hL] at h
    exact h

theorem extractRow_label (glove : List Int) (corr2 : List (Option String))
    (st : List Leaf) (s : ScanState)
    (hok : extractRow glove (some corr2) st = .ok s) :
    s.label = ((lastCorrLabel corr2 st).bind DT.valueByName).getD 0 := by
  have h := scanLeaves_label glove corr2 st initState s hok
  cases hL : lastCorrLabel corr2 st with
  | some cn =>
    rw [hL] at h
    rw [h]
    simp
  | none =>
    rw [hL] at h
    rw [h]
    simp [initState]

theorem extractRow_nn (glove : List Int) (corr : Option (List (Option String)))
    (st : List Leaf) (s : ScanState) (hok : extractRow glove corr st = .ok s) :
    s.nn = st.find? isNounPos ∧
    s.feat 1 = (match st.find? isNounPos with
      | some n => (glove.get? n.s_index).getD 0
      | none => 0) := by
  have h := (scanLeaves_nn glove corr st initState s hok).2 rfl
  cases hF : st.find? isNounPos with
  | some n =>
    rw [hF] at h
    exact ⟨h.1, h.2⟩
  | none =>
    rw [hF] at h
    exact ⟨h.1, h.2⟩

/-- C3: for every value v in {1,2,3} the correction-class name/value mappings
round-trip (`valueByName (nameByValue v) = v`), and `DT.nameByValue` fails
(modelling the raised exception) on every value outside [1,3]. -/
theorem DT_roundtrip :
    (∀ v : Int, 1 ≤ v → v ≤ 3 → (DT.nameByValue v).bind DT.valueByName = some v) ∧
    (∀ v : Int, v < 1 ∨ 3 < v → DT.nameByValue v = none) := by
  constructor
  · intro v h1 h3
    interval_cases v <;> rfl
  · intro v h
    unfold DT.nameByValue
    rw [if_pos]
    rcases h with h | h
    · exact Or.inl h
    · exact Or.inr h

theorem DT_roundtrip_witness :
    (DT.nameByValue 2).bind DT.valueByName = some 2 ∧ DT.nameByValue 0 = none :=
  ⟨DT_roundtrip.1 2 (by decide) (by decide), DT_roundtrip.2 0 (by decide)⟩

/-- C1 counterexample: in the subtree [DT "a" (position 0), DT "the"
(position 1)] with glove indices [10, 20], the first article determiner has
embedding index 10, yet the produced row has slot 0 = 20, the index of the
LAST article determiner: a later article-bearing determiner leaf does change
slot 0, refuting the first-leaf-wins claim. -/
theorem extractRow_c1_counterexample :
    (extractRow [10, 20] none [⟨"DT", "a", 0⟩, ⟨"DT", "the", 1⟩]).map
      (fun s => s.feat 0) = .ok 20 ∧ (20 : Int) ≠ 10 :=
  ⟨rfl, by decide⟩

/-- C1 amended: slot 0 of the feature row and the label are taken from the
LAST leaf whose POS is "DT" and whose text is one of {a, an, the}: that
leaf's embedding index is recorded in slot 0, and when a corrections list is
supplied the label is the correction class of the last such leaf whose
corrections entry is non-null (0 when there is none).  Later article-bearing
determiner leaves DO change slot 0 and re-evaluate the label. -/
theorem extractRow_last_article (glove : List Int)
    (corr : Option (List (Option String))) (st : List Leaf) (s : ScanState)
    (d : Leaf) (hok : extractRow glove corr st = .ok s)
    (hlast : lastDTA st = some d) :
    s.feat 0 = (glove.get? d.s_index).getD 0 ∧
    (∀ c, corr = some c →
      s.label = ((lastCorrLabel c st).bind DT.valueByName).getD 0) := by
  constructor
  · have h := (extractRow_dta glove corr st s hok).2
    rw [hlast] at h
    exact h
  · intro c hc
    subst hc
    exact extractRow_label glove c st s hok

theorem extractRow_last_article_witness :
    (extractRow [10, 20] (some [some "an", none])
      [⟨"DT", "a", 0⟩, ⟨"DT", "the", 1⟩]).map
      (fun s => (s.feat 0, s.label)) = .ok (20, 2) := by
  obtain ⟨s, hok⟩ : ∃ s, extractRow [10, 20] (some [some "an", none])
      [⟨"DT", "a", 0⟩, ⟨"DT", "the", 1⟩] = .ok s := ⟨_, rfl⟩
  have h := extractRow_last_article _ _ _ s ⟨"DT", "the", 1⟩ hok rfl
  rw [hok]
  show Except.ok (s.feat 0, s.label) = .ok (20, 2)
  rw [h.1, h.2 _ rfl]
  rfl

/-- C2 counterexample: in the subtree [DT "a" (pos 0), NN "cat" (pos 1),
DT "the" (pos 5)], at the moment the first noun is found slot 2 is
|0 - 1| = 1, but the final row has slot 2 = |5 - 1| = 4: the later article
determiner overwrites `dta_node` and the distance is then recomputed, so
slot 2 does change after the first noun has been found. -/
theorem extractRow_c2_counterexample :
    (extractRow [10, 20, 0, 0, 0, 30] none
      [⟨"DT", "a", 0⟩, ⟨"NN", "cat", 1⟩, ⟨"DT", "the", 5⟩]).map
      (fun s => s.feat 2) = .ok 4 ∧ (4 : Int) ≠ 1 :=
  ⟨rfl, by decide⟩

/-- C2 amended: slot 2 can still change after the first noun is found — every
later article determiner overwrites the recorded determiner leaf and the
distance is recomputed at each subsequent leaf; the final value is the
absolute position distance between the LAST article determiner and the first
noun, whenever both exist in the subtree. -/
theorem extractRow_distance (glove : List Int)
    (corr : Option (List (Option String))) (st : List Leaf) (s : ScanState)
    (d n : Leaf) (hok : extractRow glove corr st = .ok s)
    (hd : lastDTA st = some d) (hn : st.find? isNounPos = some n) :
    s.feat 2 = (((d.s_index : Int) - (n.s_index : Int)).natAbs : Int) := by
  have hdta : s.dta = some d := by
    rw [(extractRow_dta glove corr st s hok).1, hd]
  have hnn : s.nn = some n := by
    rw [(extractRow_nn glove corr st s hok).1, hn]
  have hne : st ≠ [] := by
    intro he
    rw [he] at hd
    simp [lastDTA] at hd
  exact scanLeaves_dist glove corr st initState s d n hne hok hdta hnn

theorem extractRow_distance_witness :
    (extractRow [10, 20, 0, 0, 0, 30] none
      [⟨"DT", "a", 0⟩, ⟨"NN", "cat", 1⟩, ⟨"DT", "the", 5⟩]).map
      (fun s => s.feat 2) = .ok 4 := by
  obtain ⟨s, hok⟩ : ∃ s, extractRow [10, 20, 0, 0, 0, 30] none
      [⟨"DT", "a", 0⟩, ⟨"NN", "cat", 1⟩, ⟨"DT", "the", 5⟩] = .ok s := ⟨_, rfl⟩
  have h := extractRow_distance _ _ _ s ⟨"DT", "the", 5⟩ ⟨"NN", "cat", 1⟩ hok rfl rfl
  rw [hok]
  show Except.ok (s.feat 2) = .ok 4
  rw [h]
  rfl

/-- C9: only the first leaf whose POS is one of {NN, NNS, NNP, NNPS} has its
embedding index recorded in slot 1: the final `nn_node` is exactly the first
noun leaf of the subtree and slot 1 holds exactly its embedding index (0 when
the subtree has no noun leaf); subsequent noun leaves never overwrite it. -/
theorem extractRow_first_noun_only (glove : List Int)
    (corr : Option (List (Option String))) (st : List Leaf) (s : ScanState)
    (hok : extractRow glove corr st = .ok s) :
    s.nn = st.find? isNounPos ∧
    s.feat 1 = (match st.find? isNounPos with
      | some n => (glove.get? n.s_index).getD 0
      | none => 0) :=
  extractRow_nn glove corr st s hok

theorem extractRow_first_noun_only_witness :
    (extractRow [7, 9] none [⟨"NN", "cat", 0⟩, ⟨"NN", "dog", 1⟩]).map
      (fun s => s.feat 1) = .ok 7 := by
  obtain ⟨s, hok⟩ : ∃ s, extractRow [7, 9] none
      [⟨"NN", "cat", 0⟩, ⟨"NN", "dog", 1⟩] = .ok s := ⟨_, rfl⟩
  have h := extractRow_first_noun_only _ _ _ s hok
  rw [hok]
  show Except.ok (s.feat 1) = .ok 7
  rw [h.2]
  rfl

/-- C10: when a candidate subtree contains more than one article-bearing
determiner leaf, slot 0 ends up holding the embedding index of the LAST such
leaf in scan order, and the label is the correction class of the last such
leaf whose corrections entry is non-null — so a later determiner overwrites
slot 0 and re-evaluates the label, while a later determiner with a null
entry leaves the previously assigned label in place. -/
theorem extractRow_last_article_wins (glove : List Int)
    (corr2 : List (Option String)) (st : List Leaf) (s : ScanState) (d : Leaf)
    (hok : extractRow glove (some corr2) st = .ok s)
    (hlast : lastDTA st = some d) :
    s.feat 0 = (glove.get? d.s_index).getD 0 ∧
    s.label = ((lastCorrLabel corr2 st).bind DT.valueByName).getD 0 := by
  constructor
  · have h := (extractRow_dta _ _ _ _ hok).2
    rw [hlast] at h
    exact h
  · exact extractRow_label _ _ _ _ hok

theorem extractRow_last_article_wins_witness :
    (extractRow [11, 22] (some [some "the", none])
      [⟨"DT", "a", 0⟩, ⟨"DT", "an", 1⟩]).map
      (fun s => (s.feat 0, s.label)) = .ok (22, 3) := by
  obtain ⟨s, hok⟩ : ∃ s, extractRow [11, 22] (some [some "the", none])
      [⟨"DT", "a", 0⟩, ⟨"DT", "an", 1⟩] = .ok s := ⟨_, rfl⟩
  have h := extractRow_last_article_wins _ _ _ s ⟨"DT", "an", 1⟩ hok rfl
  rw [hok]
  show Except.ok (s.feat 0, s.label) = .ok (22, 3)
  rw [h.1, h.2]
  rfl

/-- C7: a candidate site yields label 0 whenever the corrections entries at
all of its article-determiner positions are null, and when no corrections
list is supplied at all `extractFeatures` produces no labels (`None`), so
label assignment is a no-op in both cases. -/
theorem extractRow_label_default :
    (∀ (glove : List Int) (corr2 : List (Option String)) (st : List Leaf)
       (s : ScanState), extractRow glove (some corr2) st = .ok s →
      (∀ x ∈ st, isArticleDT x = true → (corr2.get? x.s_index).getD none = none) →
      s.label = 0) ∧
    (∀ (dpa : List (List Leaf)) (text : List String) (glove : List Int)
       (r : List (Nat → Int) × Option (List Int)),
      extractFeatures dpa text glove none = .ok r → r.2 = none) := by
  constructor
  · intro glove corr2 st s hok hnull
    rw [extractRow_label glove corr2 st s hok, lastCorrLabel_none corr2 st hnull]
    rfl
  · intro dpa text glove r h
    obtain ⟨r1, r2⟩ := r
    exact (extractFeatures_ok _ _ _ _ _ _ h).2.1 rfl

theorem extractRow_label_default_witness :
    (extractRow [10, 20] (some [none, none])
      [⟨"DT", "the", 0⟩, ⟨"NN", "cat", 1⟩]).map (fun s => s.label) = .ok 0 := by
  obtain ⟨s, hok⟩ : ∃ s, extractRow [10, 20] (some [none, none])
      [⟨"DT", "the", 0⟩, ⟨"NN", "cat", 1⟩] = .ok s := ⟨_, rfl⟩
  have h := extractRow_label_default.1 [10, 20] [none, none] _ s hok (by decide)
  rw [hok]
  show Except.ok s.label = .ok 0
  rw [h]

/-- C4: an accepted `create` call returns exactly one feature row per
candidate subtree, summed over all sentences in sentence order; in training
mode the labels vector has the same number of rows; when no sentence has any
candidate site both are empty. -/
theorem create_row_count (text_data : List (List String)) (trees : List ParseTree)
    (glove : List (List Int)) (corrs : List (List (Option String))) (test : Bool)
    (fs : List (Nat → Int)) (lbs : Option (List Int))
    (hok : create text_data trees glove corrs test = .ok (fs, lbs)) :
    fs.length = (trees.map (fun tr => tr.dpaSubtrees.length)).sum ∧
    (test = false → ∃ l, lbs = some l ∧ l.length = fs.length) ∧
    ((∀ tr ∈ trees, tr.dpaSubtrees = []) → fs.length = 0) := by
  obtain ⟨ls, hcl, hlbs, hne, _, _, _⟩ := create_ok _ _ _ _ _ _ _ hok
  obtain ⟨hlen, hlab⟩ := createLoop_count _ _ _ _ _ _ _ hcl
  refine ⟨hlen, ?_, ?_⟩
  · intro htest
    rw [htest] at hlbs
    simp only [Bool.false_eq_true, if_false] at hlbs
    exact ⟨ls, hlbs, hlab htest⟩
  · intro hall
    rw [hlen]
    apply List.sum_eq_zero
    intro x hx
    obtain ⟨tr, htr, hxx⟩ := List.mem_map.mp hx
    rw [← hxx, hall tr htr]
    rfl

theorem create_row_count_witness :
    (create [["the", "cat"]]
      [⟨[⟨"DT", "the", 0⟩, ⟨"NN", "cat", 1⟩], [[⟨"DT", "the", 0⟩, ⟨"NN", "cat", 1⟩]]⟩]
      [[10, 20]] [[none, none]] false).map (fun r => r.1.length) = .ok 1 := by
  obtain ⟨fs, lbs, hok⟩ : ∃ fs lbs, create [["the", "cat"]]
      [⟨[⟨"DT", "the", 0⟩, ⟨"NN", "cat", 1⟩], [[⟨"DT", "the", 0⟩, ⟨"NN", "cat", 1⟩]]⟩]
      [[10, 20]] [[none, none]] false = .ok (fs, lbs) := ⟨_, _, rfl⟩
  have h := create_row_count _ _ _ _ _ _ _ hok
  rw [hok]
  show Except.ok fs.length = .ok 1
  rw [h.1]
  rfl

/-- C5: `create` fails with an error — returning no matrices — whenever the
corpora disagree in sentence count, or some sentence's corrections list (when
present, i.e. in training mode), embedding-index list, or text-token list
differs in length from that sentence's tree leaf count. -/
theorem create_alignment_failfast (text_data : List (List String))
    (trees : List ParseTree) (glove : List (List Int))
    (corrs : List (List (Option String))) (test : Bool)
    (h : text_data.length ≠ trees.length ∨
         (test = false ∧ corrs.length ≠ trees.length) ∨
         glove.length ≠ trees.length ∨
         (∃ i, sentenceMismatch text_data trees glove corrs test i)) :
    exOk (create text_data trees glove corrs test) = false := by
  cases hres : create text_data trees glove corrs test with
  | error e => rfl
  | ok p =>
    exfalso
    obtain ⟨fs, lbs⟩ := p
    obtain ⟨ls, hcl, _, _, hTlen, hClen, hGlen⟩ := create_ok _ _ _ _ _ _ _ hres
    rcases h with h | ⟨ht, h⟩ | h | ⟨i, hmis⟩
    · exact h hTlen
    · exact h (hClen ht)
    · exact h hGlen
    · exact createLoop_no_mismatch _ _ _ _ _ _ _ hcl i hmis

theorem create_alignment_failfast_witness :
    exOk (create [["x"]] ([] : List ParseTree) ([] : List (List Int))
      ([] : List (List (Option String))) false) = false :=
  create_alignment_failfast _ _ _ _ _ (Or.inl (by decide))

/-- C6: `savePredictions` fails on any prediction slot whose class value lies
outside [0,3]; every accepted slot with class 0 serializes to `None` (no
suggestion) and classes 1..3 serialize to the pair of the lowercase class
name and the unchanged confidence, so (class 1, confidence q) gives
("a", q). -/
theorem savePredictions_encoding :
    (∀ (p : List (List (Int × ℚ))) (s : List (Int × ℚ)) (w : Int × ℚ),
      s ∈ p → w ∈ s → (w.1 < 0 ∨ w.1 > 3) →
      exOk (savePredictions p) = false) ∧
    (∀ q : ℚ, encodeSlot (0, q) = .ok none) ∧
    (∀ q : ℚ, encodeSlot (1, q) = .ok (some ("a", q))) ∧
    (∀ q : ℚ, encodeSlot (2, q) = .ok (some ("an", q))) ∧
    (∀ q : ℚ, encodeSlot (3, q) = .ok (some ("the", q))) := by
  refine ⟨?_, fun q => rfl, fun q => rfl, fun q => rfl, fun q => rfl⟩
  intro p s w hs hw hbad
  cases hres : savePredictions p with
  | error e => rfl
  | ok out =>
    exfalso
    unfold savePredictions at hres
    obtain ⟨ys, hys⟩ := mapExcept_forall_ok _ _ _ hres s hs
    obtain ⟨y, hy⟩ := mapExcept_forall_ok _ _ _ hys w hw
    rw [encodeSlot_bad w hbad] at hy
    exact Except.noConfusion hy

theorem savePredictions_encoding_witness :
    exOk (savePredictions [[(4, (1 : ℚ)/2)]]) = false ∧
    encodeSlot (1, (7 : ℚ)/10) = .ok (some ("a", 7/10)) :=
  ⟨savePredictions_encoding.1 [[(4, (1 : ℚ)/2)]] [(4, (1 : ℚ)/2)] (4, (1 : ℚ)/2)
      (by simp) (by simp) (Or.inr (by decide)),
   savePredictions_encoding.2.2.1 ((7 : ℚ)/10)⟩

/-- C8: `predictionsFromLabels` re-partitions the flat prediction stream by
re-running candidate-site discovery on each sentence's tree: the result has
one entry per sentence in sentence order, and the entry for sentence i is
exactly the next `count(sites in sentence i)` consecutive rows of the stream,
taken at the cursor position given by the site counts of the sentences before
it. -/
theorem predictionsFromLabels_partition (labels : List (Int × ℚ))
    (text_data : List (List String)) (trees : List ParseTree)
    (res : List (List (Int × ℚ)))
    (hok : predictionsFromLabels labels text_data trees = .ok res) :
    res.length = trees.length ∧
    ∀ i, i < trees.length →
      res.get? i = some ((labels.drop
          (((trees.take i).map (fun t => t.dpaSubtrees.length)).sum)).take
        ((trees.get? i).elim 0 (fun t => t.dpaSubtrees.length))) := by
  have h := predLoop_ok labels trees text_data 0 res hok
  refine ⟨h.1, fun i hi => ?_⟩
  have hg := h.2 i hi
  simpa using hg

theorem predictionsFromLabels_partition_witness :
    (predictionsFromLabels [(1, (1 : ℚ)/2), (2, 1/2), (3, 1/2)] [["a"], ["b"]]
      [⟨[], [[⟨"DT", "a", 0⟩]]⟩, ⟨[], [[⟨"DT", "an", 0⟩], [⟨"DT", "the", 0⟩]]⟩]).map
      (fun r => (r.length, r.get? 1)) = .ok (2, some [(2, (1 : ℚ)/2), (3, 1/2)]) := by
  obtain ⟨res, hok⟩ : ∃ r, predictionsFromLabels [(1, (1 : ℚ)/2), (2, 1/2), (3, 1/2)]
      [["a"], ["b"]]
      [⟨[], [[⟨"DT", "a", 0⟩]]⟩, ⟨[], [[⟨"DT", "an", 0⟩], [⟨"DT", "the", 0⟩]]⟩] = .ok r :=
    ⟨_, rfl⟩
  have h := predictionsFromLabels_partition _ _ _ _ hok
  rw [hok]
  show Except.ok (res.length, res.get? 1) = .ok (2, some [(2, (1 : ℚ)/2), (3, 1/2)])
  rw [h.1, h.2 1 (by decide)]
  rfl
